import Mathlib

/-!
Verification of the hierarchical quotient-space planner core
(`MultiQuotient.h`) and the generic named-parameter layer
(`GenericParam.h`) of this repository.

The comparator `CmpQuotientSpacePtrs` and the whole of `SpecificParam`
are embedded directly from the headers under `src/`.  The bodies of
`MultiQuotient::solve`, `clear`, `setStopLevel` and the constructor live
in `src/MultiQuotient.ipp`, which is not part of the source tree given;
those operations are modelled from the specification, as marked in their
doc comments.
-/

namespace OmplSpec

/-- One entry of the scheduler's priority structure: a quotient-space
Level identified by its level index, together with the importance its
planner currently reports (`Quotient::getImportance`).  Importance is a
scalar; it is modelled as a rational number. -/
structure SchedulerEntry where
  index : Nat
  importance : ℚ
deriving DecidableEq

/-- Embeds `MultiQuotient::CmpQuotientSpacePtrs::operator()`
(MultiQuotient.h lines 104-112): `lhs->getImportance() < rhs->getImportance()`.
It compares importances only; the level index does not participate. -/
def cmpQuotientSpacePtrs (lhs rhs : SchedulerEntry) : Bool :=
  decide (lhs.importance < rhs.importance)

/-- Helper for `popMax`: scans the remaining entries, keeping the current
best (replaced only when an entry is strictly greater under
`cmpQuotientSpacePtrs`, so among equal-importance entries the earliest
queued one is kept) and accumulating the rest in order. -/
def popMaxAux (best : SchedulerEntry) (acc : List SchedulerEntry) :
    List SchedulerEntry → SchedulerEntry × List SchedulerEntry
  | [] => (best, acc)
  | x :: xs =>
    if cmpQuotientSpacePtrs best x then popMaxAux x (acc ++ [best]) xs
    else popMaxAux best (acc ++ [x]) xs

/-- Models `priorityQueue_.top(); priorityQueue_.pop()` on the
`std::priority_queue` ordered by `cmpQuotientSpacePtrs`: removes an entry
that is maximal under the comparator from the source, returning it and
the remaining entries.  Among comparator-equal entries the earliest
queued one is removed first, as the underlying binary heap does for the
queue shapes arising here; the standard leaves that order unspecified. -/
def popMax : List SchedulerEntry → Option (SchedulerEntry × List SchedulerEntry)
  | [] => none
  | x :: xs => some (popMaxAux x [] xs)

/-- The console-message interface `msg::Interface` as far as the claims
observe it: the sequences of warning and debug messages emitted so far. -/
structure Msg where
  warnings : List String
  debugs : List String
deriving DecidableEq

/-- Models `msg_->warn(...)`: appends a warning message. -/
def Msg.warn (m : Msg) (s : String) : Msg :=
  { m with warnings := m.warnings ++ [s] }

/-- Models `msg_->debug(...)`: appends a debug message. -/
def Msg.debug (m : Msg) (s : String) : Msg :=
  { m with debugs := m.debugs ++ [s] }

/-- The two directions of `boost::lexical_cast` used by `SpecificParam<T>`:
`fromString` models `lexical_cast<T>(std::string)` and `toStr` models
`lexical_cast<std::string>(T)`; `none` stands for a thrown
`boost::bad_lexical_cast`. -/
structure LexicalCast (T : Type) where
  fromString : String → Option T
  toStr : T → Option String

/-- Embeds `ompl::base::SpecificParam<T>` (GenericParam.h lines 117-189):
the parameter name, the `setter_` closure (acting on an external store of
type `σ`), and the optional `getter_` closure.  A default-constructed
`boost::function` getter is `none`. -/
structure SpecificParam (σ T : Type) where
  name : String
  setter : T → σ → σ
  getter : Option (σ → T)

/-- Embeds `SpecificParam<T>::getValue` (GenericParam.h lines 166-180):
if a getter is present, convert its result with `lexical_cast`; on
conversion failure log a warning and return the empty string; without a
getter return the empty string.  The model is a total function: both
exceptional paths of the source are caught there and surface only as
the returned string and the logged messages. -/
def SpecificParam.getValue (p : SpecificParam σ T) (lc : LexicalCast T)
    (s : σ) (m : Msg) : String × Msg :=
  match p.getter with
  | some g =>
    match lc.toStr (g s) with
    | some str => (str, m)
    | none => ("", m.warn ("Unable to parameter " ++ p.name ++ " to string"))
  | none => ("", m)

/-- Embeds `SpecificParam<T>::setValue` (GenericParam.h lines 146-164):
convert the string with `lexical_cast<T>`; on success invoke the setter,
on failure set the result to `false` and log a warning (the setter is
not invoked, so the store is unchanged).  Afterwards a debug message is
logged, through `getValue` when a getter is present.  Returns the result
flag, the store, and the console messages; the conversion failure is
caught inside, so the model is a total function. -/
def SpecificParam.setValue (p : SpecificParam σ T) (lc : LexicalCast T)
    (value : String) (s : σ) (m : Msg) : Bool × σ × Msg :=
  let step :=
    match lc.fromString value with
    | some v => (true, p.setter v s, m)
    | none =>
      (false, s,
        m.warn ("Invalid value format specified for parameter " ++ p.name))
  match p.getter with
  | some _ =>
    let g := p.getValue lc step.2.1 step.2.2
    (step.1, step.2.1,
      g.2.debug ("The value of parameter " ++ p.name ++ " is now: " ++ g.1))
  | none =>
    (step.1, step.2.1,
      step.2.2.debug
        ("The value of parameter " ++ p.name ++ " was set to: " ++ value))

/-- Looks up a parameter by name in an association list, as
`ParamSet::params_` (a `std::map` keyed by name) does. -/
def findParam (key : String) :
    List (String × SpecificParam σ T) → Option (SpecificParam σ T)
  | [] => none
  | (k, p) :: rest => if k = key then some p else findParam key rest

/-- A set of named parameters over one store/value type, as far as the
claims use it (`ParamSet::params_`). -/
structure ParamSet (σ T : Type) where
  params : List (String × SpecificParam σ T)

/-- Modelled from the spec: the body of `ParamSet::setParam` is not under
`src/` (only its declaration and doc comment in GenericParam.h lines
221-232).  Per the spec's named-parameter layer it forwards to the named
parameter's `setValue` and reports the parse result as a boolean; an
unknown name is reported as `false` with a warning. -/
def ParamSet.setParam (ps : ParamSet σ T) (lc : LexicalCast T)
    (key value : String) (s : σ) (m : Msg) : Bool × σ × Msg :=
  match findParam key ps.params with
  | some p => p.setValue lc value s m
  | none => (false, s, m.warn ("Parameter " ++ key ++ " was not found"))

/-- Digit-string to number accumulation for `parseUInt`. -/
def digitsToNat (cs : List Char) : Nat :=
  cs.foldl (fun acc c => acc * 10 + (c.toNat - 48)) 0

/-- Models `boost::lexical_cast<unsigned int>` on a string: an optional
leading `+`, then one or more decimal digits (leading zeros accepted),
no other characters, rejecting values outside the 32-bit range; any
other input throws `bad_lexical_cast`, i.e. returns `none`. -/
def parseUInt (str : String) : Option Nat :=
  let cs :=
    match str.data with
    | '+' :: rest => rest
    | l => l
  if cs.isEmpty then none
  else if cs.all (fun c => c.isDigit) then
    if digitsToNat cs < 2 ^ 32 then some (digitsToNat cs) else none
  else none

/-- Models `boost::lexical_cast` in both directions at
`T = unsigned int`, the type of `MultiQuotient::stopAtLevel_`: parsing
per `parseUInt`, printing as canonical decimal digits (which never
throws). -/
def lcUInt : LexicalCast Nat :=
  { fromString := parseUInt, toStr := fun n => some (Nat.repr n) }

/-- The `stopLevel`-style parameter of the spec's round-trip property: a
`SpecificParam` over an unsigned store where the setter writes the store
and the getter reads it back. -/
def stopLevelParam : SpecificParam Nat Nat :=
  { name := "stopLevel", setter := fun v _ => v, getter := some (fun s => s) }

/-- A parameter set holding only `stopLevelParam`. -/
def stopParamSet : ParamSet Nat Nat :=
  { params := [("stopLevel", stopLevelParam)] }

/-- The empty console-message state. -/
def msg0 : Msg :=
  { warnings := [], debugs := [] }

/-- A parameter declared with a setter only — the getter argument left at
its default, a default-constructed `boost::function`, i.e. `none`. -/
def setterOnlyParam : SpecificParam Nat Nat :=
  { name := "range", setter := fun v _ => v, getter := none }

/-- A lexical-cast model whose conversions always fail, exercising the
conversion-failure branches. -/
def lcFail : LexicalCast Nat :=
  { fromString := fun _ => none, toStr := fun _ => none }

/-- The overall status GlobalState carries per the spec (section 3):
Unsolved, Solved, Exhausted or Cancelled. -/
inductive GStatus
  | unsolved
  | solvedStatus
  | exhausted
  | cancelled
deriving DecidableEq

/-- One Level as the claims observe it: its cached dimension, the
feasible-node and total-node counters its planner reports, and whether
it has been solved. -/
structure LevelState where
  dimension : Nat
  feasible : Nat
  total : Nat
  solved : Bool
deriving DecidableEq

/-- Default used for out-of-range level reads: dimension 0, zero
counters, unsolved. -/
def defaultLevel : LevelState :=
  { dimension := 0, feasible := 0, total := 0, solved := false }

/-- The planner's global state per the spec's data model: the Levels,
the recorded solutions (by level index), the scheduler queue, the
current unsolved level, the stop level and the overall status. -/
structure MQState where
  levels : List LevelState
  solutions : List Nat
  queue : List SchedulerEntry
  currentUnsolvedLevel : Nat
  stopAtLevel : Nat
  status : GStatus
deriving DecidableEq

/-- Whether level `i` is marked solved (out-of-range indices read as
unsolved). -/
def levelSolved (st : MQState) (i : Nat) : Bool :=
  (st.levels.getD i defaultLevel).solved

/-- Replaces the `i`-th element of a level list by `f` of it; lists
shorter than `i + 1` are unchanged. -/
def updateAt (i : Nat) (f : LevelState → LevelState) :
    List LevelState → List LevelState
  | [] => []
  | x :: xs =>
    match i with
    | 0 => f x :: xs
    | j + 1 => x :: updateAt j f xs

/-- The outcome of one expansion quantum of a Level's planner, as the
Quotient capability contract exposes it: whether this quantum solved the
level, the importance the planner reports afterwards, and the counter
values afterwards. -/
structure QuantumOutcome where
  solvedQuantum : Bool
  newImportance : ℚ
  feasibleAfter : Nat
  totalAfter : Nat

/-- Writes the counter values a quantum produced into level `i`. -/
def applyQuantum (st : MQState) (i : Nat) (oc : QuantumOutcome) : MQState :=
  { st with
    levels :=
      updateAt i
        (fun l => { l with feasible := oc.feasibleAfter, total := oc.totalAfter })
        st.levels }

/-- Marks level `i` solved. -/
def markLevelSolved (st : MQState) (i : Nat) : MQState :=
  { st with
    levels := updateAt i (fun l => { l with solved := true }) st.levels }

/-- One scheduling step whose quantum did not solve its level (spec
section 4.2 step 3): record the counters, re-query importance and
reinsert the entry. -/
def stepReinsert (st : MQState) (e : SchedulerEntry)
    (rest : List SchedulerEntry) (oc : QuantumOutcome) : MQState :=
  let st1 := applyQuantum { st with queue := rest } e.index oc
  { st1 with queue := st1.queue ++ [⟨e.index, oc.newImportance⟩] }

/-- One scheduling step that solved the current unsolved level while it
equals the stop level (spec section 4.3): record the counters, mark the
level solved, record its path, do not reinsert, and finish with the
Solved status. -/
def stepSolvedFinal (st : MQState) (e : SchedulerEntry)
    (rest : List SchedulerEntry) (oc : QuantumOutcome) : MQState :=
  let st2 := markLevelSolved (applyQuantum { st with queue := rest } e.index oc) e.index
  { st2 with
    solutions := st2.solutions ++ [e.index],
    status := .solvedStatus }

/-- One scheduling step that solved the current unsolved level below the
stop level (spec section 4.3): record the counters, mark the level
solved, record its path, insert the next level into the scheduler with
its initial importance, and advance the current unsolved level. -/
def stepAdvance (imp0 : Nat → ℚ) (st : MQState) (e : SchedulerEntry)
    (rest : List SchedulerEntry) (oc : QuantumOutcome) : MQState :=
  let st2 := markLevelSolved (applyQuantum { st with queue := rest } e.index oc) e.index
  { st2 with
    solutions := st2.solutions ++ [e.index],
    queue :=
      st2.queue ++
        [⟨st2.currentUnsolvedLevel + 1, imp0 (st2.currentUnsolvedLevel + 1)⟩],
    currentUnsolvedLevel := st2.currentUnsolvedLevel + 1 }

/-- One scheduling step that solved a level other than the current
unsolved one: record the counters and mark it solved without reinsert
(unreachable from well-formed states, where the scheduler only holds the
current unsolved level). -/
def stepSolvedOther (st : MQState) (e : SchedulerEntry)
    (rest : List SchedulerEntry) (oc : QuantumOutcome) : MQState :=
  markLevelSolved (applyQuantum { st with queue := rest } e.index oc) e.index

/-- Modelled from the spec: the body of `MultiQuotient::solve`
(src/MultiQuotient.ipp) is not under `src/`.  The loop follows spec
sections 4.2-4.3: poll the termination condition once per scheduling
step (`tc step`); stop with `cancelled` when it fires; leave the loop
when the current unsolved level has passed the stop level; report
`exhausted` on an empty scheduler; otherwise remove the
comparator-maximal entry via `popMax`, run one quantum of that level's
planner (the black-box `oracle`, indexed by level and step), record the
counters; a non-solving quantum re-queries importance and reinserts the
entry; a solving quantum is not reinserted, records the solution, and
either finishes with `solvedStatus` at the stop level or inserts the
next level (initial importance `imp0`) and advances the current unsolved
level.  `fuel` bounds the number of loop iterations; the function is
total and always returns a state whose status is its return value. -/
def solveLoop (tc : Nat → Bool) (oracle : Nat → Nat → QuantumOutcome)
    (imp0 : Nat → ℚ) : Nat → Nat → MQState → MQState
  | 0, _, st => st
  | fuel + 1, step, st =>
    if tc step then { st with status := .cancelled }
    else if st.stopAtLevel < st.currentUnsolvedLevel then st
    else
      match popMax st.queue with
      | none => { st with status := .exhausted }
      | some (e, rest) =>
        let oc := oracle e.index step
        if oc.solvedQuantum then
          if e.index = st.currentUnsolvedLevel then
            if st.currentUnsolvedLevel = st.stopAtLevel then
              stepSolvedFinal st e rest oc
            else
              solveLoop tc oracle imp0 fuel (step + 1)
                (stepAdvance imp0 st e rest oc)
          else
            solveLoop tc oracle imp0 fuel (step + 1) (stepSolvedOther st e rest oc)
        else
          solveLoop tc oracle imp0 fuel (step + 1) (stepReinsert st e rest oc)

/-- Entry point `MultiQuotient::solve`: runs the scheduling loop from step 0. -/
def solve (tc : Nat → Bool) (oracle : Nat → Nat → QuantumOutcome)
    (imp0 : Nat → ℚ) (fuel : Nat) (st : MQState) : MQState :=
  solveLoop tc oracle imp0 fuel 0 st

/-- Modelled from the spec: construction plus `setup` (spec sections
4.1, 4.3-Setup) build one Level per space description, seed the
scheduler with level 0, set the current unsolved level to 0, the stop
level to its default N-1, and the status to Unsolved. -/
def initState (dims : List Nat) (imp0 : Nat → ℚ) : MQState :=
  { levels :=
      dims.map (fun d =>
        { dimension := d, feasible := 0, total := 0, solved := false }),
    solutions := [],
    queue := [⟨0, imp0 0⟩],
    currentUnsolvedLevel := 0,
    stopAtLevel := dims.length - 1,
    status := .unsolved }

/-- Whether a dimension sequence is non-decreasing. -/
def nonDecreasing : List Nat → Bool
  | [] => true
  | [_] => true
  | a :: b :: rest => a ≤ b && nonDecreasing (b :: rest)

/-- The configuration errors of the spec's error taxonomy that the
claims mention. -/
inductive ConfigError
  | dimensionsNotMonotonic
  | stopLevelOutOfRange
deriving DecidableEq

/-- Modelled from the spec: the `MultiQuotient` constructor body
(src/MultiQuotient.ipp) is not under `src/`.  Per spec section 4.1,
construction from an ordered sequence of space descriptions checks that
consecutive dimensions are non-decreasing and reports a fatal
configuration error at construction time on violation; otherwise it
yields the initial planner state. -/
def mkMultiQuotient (dims : List Nat) (imp0 : Nat → ℚ) :
    Except ConfigError MQState :=
  if nonDecreasing dims then .ok (initState dims imp0)
  else .error .dimensionsNotMonotonic

/-- Modelled from the spec: the body of `MultiQuotient::setStopLevel`
(src/MultiQuotient.ipp) is not under `src/`.  Per spec section 4.4,
`setStopLevel(k)` requires `0 ≤ k < N` (the argument is unsigned, so
`0 ≤ k` always holds); an out-of-range value is a configuration error,
fatal for that call and never silently coerced; in range, the stop level
is set to `k`. -/
def setStopLevel (k : Nat) (st : MQState) : Except ConfigError MQState :=
  if k < st.levels.length then .ok { st with stopAtLevel := k }
  else .error .stopLevelOutOfRange

/-- Resets one Level's planner (`Quotient::clear`): counters to zero,
no solution. -/
def clearLevel (l : LevelState) : LevelState :=
  { l with feasible := 0, total := 0, solved := false }

/-- Modelled from the spec: the body of `MultiQuotient::clear`
(src/MultiQuotient.ipp) is not under `src/`.  Per spec section 4.5 it
discards all recorded solutions, empties the scheduler, resets the
current unsolved level to 0 and the status to Unsolved, and invokes each
Level's planner's own clear. -/
def clear (st : MQState) : MQState :=
  { st with
    levels := st.levels.map clearLevel,
    solutions := [],
    queue := [],
    currentUnsolvedLevel := 0,
    status := .unsolved }

/-- The scheduler/state-machine invariant of reachable planner states:
every solved level lies at or below the current unsolved level, every
level strictly below the current unsolved level is solved, the stop
level addresses an existing level, and the scheduler holds at most one
live entry, for the current unsolved level. -/
def WFsched (st : MQState) : Prop :=
  (∀ i, levelSolved st i = true → i ≤ st.currentUnsolvedLevel) ∧
  (∀ i, i < st.currentUnsolvedLevel → levelSolved st i = true) ∧
  st.stopAtLevel < st.levels.length ∧
  (st.queue = [] ∨ ∃ q, st.queue = [⟨st.currentUnsolvedLevel, q⟩])

/-!  Helper lemmas. -/

theorem popMaxAux_max (l : List SchedulerEntry) :
    ∀ (best : SchedulerEntry) (acc : List SchedulerEntry),
      best.importance ≤ (popMaxAux best acc l).1.importance ∧
      ∀ y ∈ l, y.importance ≤ (popMaxAux best acc l).1.importance := by
  induction l with
  | nil =>
    intro best acc
    exact ⟨le_refl _, by simp⟩
  | cons x xs ih =>
    intro best acc
    by_cases h : cmpQuotientSpacePtrs best x = true
    · have hlt : best.importance < x.importance := by
        simpa [cmpQuotientSpacePtrs] using h
      have hmain := ih x (acc ++ [best])
      simp only [popMaxAux, h, if_true]
      refine ⟨le_of_lt (lt_of_lt_of_le hlt hmain.1), ?_⟩
      intro y hy
      rcases List.mem_cons.mp hy with hy | hy
      · subst hy
        exact hmain.1
      · exact hmain.2 y hy
    · have hle : x.importance ≤ best.importance := by
        have hnot : ¬ best.importance < x.importance := by
          simpa [cmpQuotientSpacePtrs] using h
        exact le_of_not_lt hnot
      have hmain := ih best (acc ++ [x])
      simp only [popMaxAux, h, if_false]
      refine ⟨hmain.1, ?_⟩
      intro y hy
      rcases List.mem_cons.mp hy with hy | hy
      · subst hy
        exact le_trans hle hmain.1
      · exact hmain.2 y hy

/-- The popped entry is comparator-maximal: every entry of the queue has
importance at most the popped entry's. -/
theorem popMax_max {q : List SchedulerEntry} {e : SchedulerEntry}
    {rest : List SchedulerEntry} (h : popMax q = some (e, rest)) :
    ∀ y ∈ q, y.importance ≤ e.importance := by
  cases q with
  | nil => simp [popMax] at h
  | cons x xs =>
    have hx := popMaxAux_max xs x []
    have he : (popMaxAux x [] xs).1 = e := by
      have h2 := h
      simp only [popMax, Option.some.injEq] at h2
      exact congrArg Prod.fst h2
    intro y hy
    rcases List.mem_cons.mp hy with hy | hy
    · subst hy
      simpa [he] using hx.1
    · simpa [he] using hx.2 y hy

example : popMax [⟨0, mkRat 1 10⟩, ⟨1, mkRat 9 10⟩, ⟨2, mkRat 5 10⟩] =
    some (⟨1, mkRat 9 10⟩, [⟨0, mkRat 1 10⟩, ⟨2, mkRat 5 10⟩]) := by decide

example : parseUInt "2" = some 2 := by decide
example : parseUInt "02" = some 2 := by decide
example : parseUInt "abc" = none := by decide
example : parseUInt "+7" = some 7 := by decide
example : parseUInt "" = none := by decide

theorem updateAt_length (f : LevelState → LevelState) :
    ∀ (ls : List LevelState) (i : Nat), (updateAt i f ls).length = ls.length := by
  intro ls
  induction ls with
  | nil => intro i; simp [updateAt]
  | cons x xs ih =>
    intro i
    cases i with
    | zero => simp [updateAt]
    | succ j => simpa [updateAt] using ih j

theorem getD_updateAt (f : LevelState → LevelState) :
    ∀ (ls : List LevelState) (i j : Nat),
      (updateAt i f ls).getD j defaultLevel =
        if i = j ∧ j < ls.length then f (ls.getD j defaultLevel)
        else ls.getD j defaultLevel := by
  intro ls
  induction ls with
  | nil =>
    intro i j
    simp [updateAt]
  | cons x xs ih =>
    intro i j
    cases i with
    | zero =>
      cases j with
      | zero => simp [updateAt]
      | succ k => simp [updateAt]
    | succ i' =>
      cases j with
      | zero => simp [updateAt]
      | succ k =>
        simp only [updateAt, List.getD_cons_succ, ih i' k, List.length_cons]
        by_cases hik : i' = k
        · subst hik
          by_cases hk : i' < xs.length
          · simp [hk]
          · simp [hk, fun h => hk (Nat.lt_of_succ_lt_succ h)]
        · simp [hik, fun h : i' + 1 = k + 1 => hik (Nat.succ_injective h)]

theorem levelSolved_applyQuantum (st : MQState) (i : Nat) (oc : QuantumOutcome)
    (j : Nat) : levelSolved (applyQuantum st i oc) j = levelSolved st j := by
  simp only [levelSolved, applyQuantum, getD_updateAt]
  split
  · rfl
  · rfl

theorem levelSolved_markLevelSolved (st : MQState) (i j : Nat) :
    levelSolved (markLevelSolved st i) j =
      if i = j ∧ j < st.levels.length then true else levelSolved st j := by
  simp only [levelSolved, markLevelSolved, getD_updateAt]
  split
  · rfl
  · rfl

theorem levelSolved_initState (dims : List Nat) (imp0 : Nat → ℚ) (i : Nat) :
    levelSolved (initState dims imp0) i = false := by
  simp only [levelSolved, initState]
  induction dims generalizing i with
  | nil => simp [defaultLevel]
  | cons d t ih =>
    cases i with
    | zero => simp
    | succ j => simpa using ih j

/-- The initial (constructed and set-up) state of a non-empty hierarchy
satisfies the scheduler invariant. -/
theorem wf_initState (dims : List Nat) (imp0 : Nat → ℚ) (h : dims ≠ []) :
    WFsched (initState dims imp0) := by
  refine ⟨?_, ?_, ?_, ?_⟩
  · intro i hi
    rw [levelSolved_initState] at hi
    cases hi
  · intro i hi
    simp [initState] at hi
  · have hpos : 0 < dims.length := List.length_pos.mpr h
    simp only [initState, List.length_map]
    omega
  · right
    exact ⟨imp0 0, rfl⟩

theorem getValue_warnings_mono (p : SpecificParam σ T) (lc : LexicalCast T)
    (s : σ) (m : Msg) (w : String) (hw : w ∈ m.warnings) :
    w ∈ (p.getValue lc s m).2.warnings := by
  cases hg : p.getter with
  | none => simpa [SpecificParam.getValue, hg] using hw
  | some g =>
    cases ht : lc.toStr (g s) with
    | some str => simpa [SpecificParam.getValue, hg, ht] using hw
    | none =>
      simp only [SpecificParam.getValue, hg, ht, Msg.warn, List.mem_append]
      exact Or.inl hw

theorem levelSolved_mark_apply (st : MQState) (i : Nat) (oc : QuantumOutcome)
    (j : Nat) :
    levelSolved (markLevelSolved (applyQuantum st i oc) i) j =
      if i = j ∧ j < st.levels.length then true else levelSolved st j := by
  rw [levelSolved_markLevelSolved, levelSolved_applyQuantum]
  have hL : (applyQuantum st i oc).levels.length = st.levels.length := by
    simp [applyQuantum, updateAt_length]
  rw [hL]

theorem levelSolved_stepReinsert (st : MQState) (e : SchedulerEntry)
    (rest : List SchedulerEntry) (oc : QuantumOutcome) (j : Nat) :
    levelSolved (stepReinsert st e rest oc) j = levelSolved st j :=
  levelSolved_applyQuantum { st with queue := rest } e.index oc j

theorem levelSolved_stepSolvedFinal (st : MQState) (e : SchedulerEntry)
    (rest : List SchedulerEntry) (oc : QuantumOutcome) (j : Nat) :
    levelSolved (stepSolvedFinal st e rest oc) j =
      if e.index = j ∧ j < st.levels.length then true else levelSolved st j :=
  levelSolved_mark_apply { st with queue := rest } e.index oc j

theorem levelSolved_stepAdvance (imp0 : Nat → ℚ) (st : MQState)
    (e : SchedulerEntry) (rest : List SchedulerEntry) (oc : QuantumOutcome)
    (j : Nat) :
    levelSolved (stepAdvance imp0 st e rest oc) j =
      if e.index = j ∧ j < st.levels.length then true else levelSolved st j :=
  levelSolved_mark_apply { st with queue := rest } e.index oc j

theorem wf_stepReinsert (st : MQState) (e : SchedulerEntry) (oc : QuantumOutcome)
    (h : WFsched st) (he : e.index = st.currentUnsolvedLevel) :
    WFsched (stepReinsert st e [] oc) := by
  obtain ⟨h1, h2, h3, _⟩ := h
  refine ⟨?_, ?_, ?_, Or.inr ⟨oc.newImportance, ?_⟩⟩
  · intro i hi
    rw [levelSolved_stepReinsert] at hi
    exact h1 i hi
  · intro i hi
    rw [levelSolved_stepReinsert]
    exact h2 i hi
  · have hL : (stepReinsert st e [] oc).levels.length = st.levels.length := by
      simp [stepReinsert, applyQuantum, updateAt_length]
    rw [hL]
    exact h3
  · show ([] : List SchedulerEntry) ++ [⟨e.index, oc.newImportance⟩] = _
    rw [he]
    rfl

theorem wf_stepSolvedFinal (st : MQState) (e : SchedulerEntry)
    (oc : QuantumOutcome) (h : WFsched st)
    (he : e.index = st.currentUnsolvedLevel) :
    WFsched (stepSolvedFinal st e [] oc) := by
  obtain ⟨h1, h2, h3, _⟩ := h
  refine ⟨?_, ?_, ?_, Or.inl rfl⟩
  · intro i hi
    rw [levelSolved_stepSolvedFinal] at hi
    by_cases hcond : e.index = i ∧ i < st.levels.length
    · exact le_of_eq (hcond.1.symm.trans he)
    · rw [if_neg hcond] at hi
      exact h1 i hi
  · intro i hi
    rw [levelSolved_stepSolvedFinal]
    by_cases hcond : e.index = i ∧ i < st.levels.length
    · rw [if_pos hcond]
    · rw [if_neg hcond]
      exact h2 i hi
  · have hL : (stepSolvedFinal st e [] oc).levels.length = st.levels.length := by
      simp [stepSolvedFinal, markLevelSolved, applyQuantum, updateAt_length]
    rw [hL]
    exact h3

theorem wf_stepAdvance (imp0 : Nat → ℚ) (st : MQState) (e : SchedulerEntry)
    (oc : QuantumOutcome) (h : WFsched st)
    (he : e.index = st.currentUnsolvedLevel)
    (hlen : st.currentUnsolvedLevel < st.levels.length) :
    WFsched (stepAdvance imp0 st e [] oc) := by
  obtain ⟨h1, h2, h3, _⟩ := h
  refine ⟨?_, ?_, ?_,
    Or.inr ⟨imp0 (st.currentUnsolvedLevel + 1), ?_⟩⟩
  · intro i hi
    rw [levelSolved_stepAdvance] at hi
    show i ≤ st.currentUnsolvedLevel + 1
    by_cases hcond : e.index = i ∧ i < st.levels.length
    · have : i = st.currentUnsolvedLevel := hcond.1.symm.trans he
      omega
    · rw [if_neg hcond] at hi
      exact le_trans (h1 i hi) (Nat.le_succ _)
  · intro i hi
    have hi' : i < st.currentUnsolvedLevel + 1 := hi
    rw [levelSolved_stepAdvance]
    by_cases hcond : e.index = i ∧ i < st.levels.length
    · rw [if_pos hcond]
    · rw [if_neg hcond]
      rcases Nat.lt_succ_iff_lt_or_eq.mp hi' with hlt | heqi

      · exact h2 i hlt
      · exact absurd ⟨he.trans heqi.symm, by omega⟩ hcond
  · have hL : (stepAdvance imp0 st e [] oc).levels.length = st.levels.length := by
      simp [stepAdvance, markLevelSolved, applyQuantum, updateAt_length]
    rw [hL]
    exact h3
  · rfl

/-- Scheduler invariant preservation and monotone advancement of the
current unsolved level over any run of the solve loop. -/
theorem solveLoop_wf (tc : Nat → Bool) (oracle : Nat → Nat → QuantumOutcome)
    (imp0 : Nat → ℚ) :
    ∀ (fuel step : Nat) (st : MQState), WFsched st →
      WFsched (solveLoop tc oracle imp0 fuel step st) ∧
      st.currentUnsolvedLevel ≤
        (solveLoop tc oracle imp0 fuel step st).currentUnsolvedLevel := by
  intro fuel
  induction fuel with
  | zero =>
    intro step st h
    exact ⟨h, le_refl _⟩
  | succ n ih =>
    intro step st h
    simp only [solveLoop]
    by_cases htc : tc step = true
    · rw [if_pos htc]
      exact ⟨⟨h.1, h.2.1, h.2.2.1, h.2.2.2⟩, le_refl _⟩
    · rw [if_neg htc]
      by_cases hstop : st.stopAtLevel < st.currentUnsolvedLevel
      · rw [if_pos hstop]
        exact ⟨h, le_refl _⟩
      · rw [if_neg hstop]
        rcases h.2.2.2 with hq | ⟨q, hq⟩
        · rw [hq]
          simp only [popMax]
          exact ⟨⟨h.1, h.2.1, h.2.2.1, Or.inl rfl⟩, le_refl _⟩
        · rw [hq]
          simp only [popMax, popMaxAux]
          by_cases hoc : (oracle st.currentUnsolvedLevel step).solvedQuantum = true
          · rw [if_pos hoc]
            simp only [if_true]
            by_cases hfin : st.currentUnsolvedLevel = st.stopAtLevel
            · rw [if_pos hfin]
              exact ⟨wf_stepSolvedFinal st ⟨st.currentUnsolvedLevel, q⟩ (oracle st.currentUnsolvedLevel step) h rfl,
                le_refl _⟩
            · rw [if_neg hfin]
              have hlen : st.currentUnsolvedLevel < st.levels.length :=
                lt_of_le_of_lt (le_of_not_lt hstop) h.2.2.1
              have hwf2 :=
                wf_stepAdvance imp0 st ⟨st.currentUnsolvedLevel, q⟩ (oracle st.currentUnsolvedLevel step) h rfl hlen
              have hrec := ih (step + 1) _ hwf2
              exact ⟨hrec.1, le_trans (Nat.le_succ _) hrec.2⟩
          · rw [if_neg hoc]
            have hwf2 := wf_stepReinsert st ⟨st.currentUnsolvedLevel, q⟩ (oracle st.currentUnsolvedLevel step) h rfl
            have hrec := ih (step + 1) _ hwf2
            exact ⟨hrec.1, hrec.2⟩

theorem nonDecreasing_iff_chain (l : List Nat) :
    nonDecreasing l = true ↔ List.Chain' (· ≤ ·) l := by
  induction l with
  | nil => simp [nonDecreasing]
  | cons a t ih =>
    cases t with
    | nil => simp [nonDecreasing]
    | cons b t2 =>
      simp [nonDecreasing, List.chain'_cons, Bool.and_eq_true,
        decide_eq_true_eq, ih]

/-!  The claims. -/

/-- C1: every scheduling step of solve gives the quantum to the
not-yet-solved Level whose planner reports the highest importance — the
entry `popMax` removes is comparator-maximal over the whole queue — and
concretely, with three unsolved Levels reporting 0.1, 0.9 and 0.5 the
first quantum targets the Level reporting 0.9, and after that Level is
reinserted reporting 0.2 the next quantum targets the Level
reporting 0.5. -/
theorem C1_highest_importance_scheduled (q : List SchedulerEntry)
    (e : SchedulerEntry) (rest : List SchedulerEntry)
    (h : popMax q = some (e, rest)) :
    (∀ y ∈ q, y.importance ≤ e.importance) ∧
    popMax [⟨0, mkRat 1 10⟩, ⟨1, mkRat 9 10⟩, ⟨2, mkRat 5 10⟩] =
      some (⟨1, mkRat 9 10⟩, [⟨0, mkRat 1 10⟩, ⟨2, mkRat 5 10⟩]) ∧
    popMax [⟨0, mkRat 1 10⟩, ⟨2, mkRat 5 10⟩, ⟨1, mkRat 2 10⟩] =
      some (⟨2, mkRat 5 10⟩, [⟨0, mkRat 1 10⟩, ⟨1, mkRat 2 10⟩]) :=
  ⟨popMax_max h, by decide, by decide⟩

/-- C1 witness: the scheduling claim applied at the claim's own concrete
queue: the popped entry reports 0.9, and the entry reporting 0.1 is
bounded by it. -/
theorem C1_highest_importance_scheduled_witness :
    popMax [⟨0, mkRat 1 10⟩, ⟨1, mkRat 9 10⟩, ⟨2, mkRat 5 10⟩] =
      some (⟨1, mkRat 9 10⟩, [⟨0, mkRat 1 10⟩, ⟨2, mkRat 5 10⟩]) ∧
    (mkRat 1 10 : ℚ) ≤ mkRat 9 10 :=
  ⟨by decide,
    (C1_highest_importance_scheduled
        [⟨0, mkRat 1 10⟩, ⟨1, mkRat 9 10⟩, ⟨2, mkRat 5 10⟩]
        ⟨1, mkRat 9 10⟩ [⟨0, mkRat 1 10⟩, ⟨2, mkRat 5 10⟩] (by decide)).1
      ⟨0, mkRat 1 10⟩ (by decide)⟩

/-- C2: when the string cannot be converted to the parameter's type
(`lexical_cast` throws, i.e. `fromString` yields `none`), `setValue`
returns `false`, logs a warning, and does not invoke the setter, so the
store — the parameter's previous value — is unchanged; the exception is
caught inside (the model is a total function), and `ParamSet::setParam`
on the parameter's name forwards to exactly this behaviour. -/
theorem C2_parse_failure_recoverable {σ T : Type} (p : SpecificParam σ T)
    (lc : LexicalCast T) (value : String) (s : σ) (m : Msg)
    (h : lc.fromString value = none) :
    (p.setValue lc value s m).1 = false ∧
    (p.setValue lc value s m).2.1 = s ∧
    ("Invalid value format specified for parameter " ++ p.name) ∈
      (p.setValue lc value s m).2.2.warnings ∧
    ParamSet.setParam ⟨[(p.name, p)]⟩ lc p.name value s m =
      p.setValue lc value s m := by
  refine ⟨?_, ?_, ?_, ?_⟩
  · cases hg : p.getter <;> simp [SpecificParam.setValue, h, hg]
  · cases hg : p.getter <;> simp [SpecificParam.setValue, h, hg]
  · cases hg : p.getter with
    | none => simp [SpecificParam.setValue, h, hg, Msg.warn, Msg.debug]
    | some g =>
      simp only [SpecificParam.setValue, h, hg, Msg.debug]
      apply getValue_warnings_mono
      simp [Msg.warn]
  · simp [ParamSet.setParam, findParam]

/-- C2 witness: the parse-failure claim applied to the stop-level
parameter at the unparsable string "abc" over store value 5. -/
theorem C2_parse_failure_recoverable_witness :
    lcUInt.fromString "abc" = none ∧
    (stopLevelParam.setValue lcUInt "abc" 5 msg0).1 = false ∧
    (stopLevelParam.setValue lcUInt "abc" 5 msg0).2.1 = 5 :=
  ⟨by decide,
    (C2_parse_failure_recoverable stopLevelParam lcUInt "abc" 5 msg0
      (by decide)).1,
    (C2_parse_failure_recoverable stopLevelParam lcUInt "abc" 5 msg0
      (by decide)).2.1⟩

/-- C3 counterexample: two not-yet-solved Levels with equal importance
1/2 and indices 1 and 0 standing in the priority structure in that
(insertion) order: the comparator from the source cannot order them
either way, and the entry removed first has index 1 — not the smaller
index 0 — refuting index-ascending tie-breaking. -/
theorem C3_tie_not_broken_by_index :
    cmpQuotientSpacePtrs ⟨1, mkRat 1 2⟩ ⟨0, mkRat 1 2⟩ = false ∧
    cmpQuotientSpacePtrs ⟨0, mkRat 1 2⟩ ⟨1, mkRat 1 2⟩ = false ∧
    popMax [⟨1, mkRat 1 2⟩, ⟨0, mkRat 1 2⟩] =
      some (⟨1, mkRat 1 2⟩, [⟨0, mkRat 1 2⟩]) := by
  exact ⟨by decide, by decide, by decide⟩

/-- C3 amended: the comparator `CmpQuotientSpacePtrs` orders entries by
importance alone, so two Levels reporting equal importance are mutually
unordered, and among equal-importance entries the priority structure
removes the earlier-queued one first — the removal order among ties is
the queue's internal insertion order, not the level index. -/
theorem C3_amended_tie_order (a b : SchedulerEntry)
    (h : a.importance = b.importance) :
    cmpQuotientSpacePtrs a b = false ∧
    cmpQuotientSpacePtrs b a = false ∧
    popMax [a, b] = some (a, [b]) := by
  have h1 : cmpQuotientSpacePtrs a b = false := by
    simp [cmpQuotientSpacePtrs, h]
  have h2 : cmpQuotientSpacePtrs b a = false := by
    simp [cmpQuotientSpacePtrs, h]
  refine ⟨h1, h2, ?_⟩
  simp [popMax, popMaxAux, h1]

/-- C3 amended witness: the tie-order claim applied to equal-importance
entries with indices 5 and 3, queued in that order. -/
theorem C3_amended_tie_order_witness :
    (⟨5, mkRat 1 2⟩ : SchedulerEntry).importance =
      (⟨3, mkRat 1 2⟩ : SchedulerEntry).importance ∧
    popMax [⟨5, mkRat 1 2⟩, ⟨3, mkRat 1 2⟩] =
      some (⟨5, mkRat 1 2⟩, [⟨3, mkRat 1 2⟩]) :=
  ⟨by decide,
    (C3_amended_tie_order ⟨5, mkRat 1 2⟩ ⟨3, mkRat 1 2⟩ (by decide)).2.2⟩

/-- C4 counterexample: `setParam("stopLevel","02")` parses successfully
(the unsigned conversion accepts a leading zero), stores 2, and reading
the parameter back yields "2" — not the string "02" that was set, so the
set-then-get round trip does not return the same string for every
parsable string. -/
theorem C4_roundtrip_counterexample :
    (ParamSet.setParam stopParamSet lcUInt "stopLevel" "02" 0 msg0).1 = true ∧
    (stopLevelParam.getValue lcUInt
        (ParamSet.setParam stopParamSet lcUInt "stopLevel" "02" 0 msg0).2.1
        msg0).1 = "2" ∧
    ("2" : String) ≠ "02" := by
  exact ⟨by decide, by decide, by decide⟩

/-- C4 amended: setting the parameter to any parsable string succeeds
and stores the parsed value, and reading it back returns the canonical
decimal rendering of that value — the same string whenever the string
set was canonical, as in `setParam("stopLevel","2")` then read
yielding "2". -/
theorem C4_roundtrip_canonical (s : String) (n : Nat) (store : Nat) (m : Msg)
    (h : parseUInt s = some n) :
    (ParamSet.setParam stopParamSet lcUInt "stopLevel" s store m).1 = true ∧
    (ParamSet.setParam stopParamSet lcUInt "stopLevel" s store m).2.1 = n ∧
    (stopLevelParam.getValue lcUInt
        (ParamSet.setParam stopParamSet lcUInt "stopLevel" s store m).2.1
        m).1 = Nat.repr n := by
  have hfind : findParam "stopLevel" stopParamSet.params = some stopLevelParam := by
    simp [stopParamSet, findParam]
  refine ⟨?_, ?_, ?_⟩ <;>
    simp [ParamSet.setParam, hfind, SpecificParam.setValue, SpecificParam.getValue,
      stopLevelParam, lcUInt, h]

/-- C4 amended witness: the canonical round trip at the claim's own
example: set "2", read back "2". -/
theorem C4_roundtrip_canonical_witness :
    parseUInt "2" = some 2 ∧
    (stopLevelParam.getValue lcUInt
        (ParamSet.setParam stopParamSet lcUInt "stopLevel" "2" 0 msg0).2.1
        msg0).1 = "2" :=
  ⟨by decide, (C4_roundtrip_canonical "2" 2 0 msg0 (by decide)).2.2⟩

/-- C5: after clear, every per-level feasible and total node count is 0,
the current unsolved level is 0, the status is Unsolved, the recorded
solutions and the scheduler are empty; clear twice equals clear once;
and clear applies to any state — including a freshly constructed,
never-solved planner — preserving the number of Levels. -/
theorem C5_clear_resets (st : MQState) :
    (∀ l ∈ (clear st).levels, l.feasible = 0 ∧ l.total = 0) ∧
    (clear st).currentUnsolvedLevel = 0 ∧
    (clear st).status = .unsolved ∧
    (clear st).solutions = [] ∧
    (clear st).queue = [] ∧
    clear (clear st) = clear st ∧
    (clear st).levels.length = st.levels.length := by
  refine ⟨?_, rfl, rfl, rfl, rfl, ?_, by simp [clear]⟩
  · intro l hl
    simp only [clear, List.mem_map] at hl
    obtain ⟨x, _, hx⟩ := hl
    subst hx
    exact ⟨rfl, rfl⟩
  · have hmap : ∀ x, clearLevel (clearLevel x) = clearLevel x := fun _ => rfl
    simp [clear, List.map_map, Function.comp, hmap]

/-- C5 witness: the clear claim applied to the freshly constructed,
never-solved three-level planner. -/
theorem C5_clear_resets_witness :
    clear (clear (initState [2, 4, 6] (fun _ => 1))) =
      clear (initState [2, 4, 6] (fun _ => 1)) ∧
    (clear (initState [2, 4, 6] (fun _ => 1))).currentUnsolvedLevel = 0 :=
  ⟨(C5_clear_resets (initState [2, 4, 6] (fun _ => 1))).2.2.2.2.2.1,
    (C5_clear_resets (initState [2, 4, 6] (fun _ => 1))).2.1⟩

/-- C6: over every run of solve from a well-formed state the scheduler
invariant is preserved, the current unsolved level never decreases
(solve offers no resetting path — only clear does), and the solved set
stays downward closed: Level i is Solved only when every Level j ≤ i is
Solved, i.e. only after Levels 0..i-1. -/
theorem C6_monotonic_advancement (tc : Nat → Bool)
    (oracle : Nat → Nat → QuantumOutcome) (imp0 : Nat → ℚ) (fuel : Nat)
    (st : MQState) (h : WFsched st) :
    WFsched (solve tc oracle imp0 fuel st) ∧
    st.currentUnsolvedLevel ≤
      (solve tc oracle imp0 fuel st).currentUnsolvedLevel ∧
    (∀ i j, j ≤ i → levelSolved (solve tc oracle imp0 fuel st) i = true →
      levelSolved (solve tc oracle imp0 fuel st) j = true) := by
  have hmain := solveLoop_wf tc oracle imp0 fuel 0 st h
  refine ⟨hmain.1, hmain.2, ?_⟩
  intro i j hji hi
  obtain ⟨g1, g2, _, _⟩ := hmain.1
  have hi' := g1 i hi
  rcases Nat.lt_or_ge j
      (solve tc oracle imp0 fuel st).currentUnsolvedLevel with hlt | hge
  · exact g2 j hlt
  · have hij : i = j := le_antisymm (le_trans hi' hge) hji
    rw [← hij]
    exact hi

/-- C6 witness: the monotonic-advancement claim applied to the fresh
three-level planner under an immediately-true termination condition. -/
theorem C6_monotonic_advancement_witness :
    WFsched (initState [2, 4, 6] (fun _ => 1)) ∧
    (initState [2, 4, 6] (fun _ => 1)).currentUnsolvedLevel ≤
      (solve (fun _ => true) (fun _ _ => ⟨false, 1, 0, 0⟩) (fun _ => 1) 5
        (initState [2, 4, 6] (fun _ => 1))).currentUnsolvedLevel :=
  ⟨wf_initState [2, 4, 6] (fun _ => 1) (by decide),
    (C6_monotonic_advancement (fun _ => true) (fun _ _ => ⟨false, 1, 0, 0⟩)
      (fun _ => 1) 5 (initState [2, 4, 6] (fun _ => 1))
      (wf_initState [2, 4, 6] (fun _ => 1) (by decide))).2.1⟩

/-- C7: setStopLevel accepts exactly the indices of existing levels
(the argument is unsigned, so only the upper bound can fail): in range,
the stop level becomes k and nothing else changes; out of range, the
call fails with a configuration error and yields no state at all — the
value is never silently coerced. -/
theorem C7_setStopLevel_range (k : Nat) (st : MQState) :
    (k < st.levels.length →
      setStopLevel k st = .ok { st with stopAtLevel := k }) ∧
    (st.levels.length ≤ k →
      setStopLevel k st = .error .stopLevelOutOfRange) := by
  constructor
  · intro hk
    simp [setStopLevel, hk]
  · intro hk
    simp [setStopLevel, Nat.not_lt.mpr hk]

/-- C7 witness: the stop-level claim applied to the three-level planner
at the in-range index 1 and the out-of-range index 3. -/
theorem C7_setStopLevel_range_witness :
    setStopLevel 1 (initState [2, 4, 6] (fun _ => 1)) =
      .ok { initState [2, 4, 6] (fun _ => 1) with stopAtLevel := 1 } ∧
    setStopLevel 3 (initState [2, 4, 6] (fun _ => 1)) =
      .error .stopLevelOutOfRange :=
  ⟨(C7_setStopLevel_range 1 (initState [2, 4, 6] (fun _ => 1))).1 (by decide),
    (C7_setStopLevel_range 3 (initState [2, 4, 6] (fun _ => 1))).2 (by decide)⟩

/-- C8: a dimension sequence whose consecutive dimensions are not
non-decreasing makes construction itself fail with the fatal
configuration error — no planner state is produced that a later solve
could even receive, so the error cannot be deferred — while a
non-decreasing sequence constructs the initial state. -/
theorem C8_construction_checks_dimensions (dims : List Nat) (imp0 : Nat → ℚ) :
    (¬ List.Chain' (· ≤ ·) dims →
      mkMultiQuotient dims imp0 = .error .dimensionsNotMonotonic) ∧
    (List.Chain' (· ≤ ·) dims →
      mkMultiQuotient dims imp0 = .ok (initState dims imp0)) := by
  constructor
  · intro hv
    have hb : nonDecreasing dims = false := by
      rcases Bool.eq_false_or_eq_true (nonDecreasing dims) with hb | hb
      · exact absurd ((nonDecreasing_iff_chain dims).mp hb) hv
      · exact hb
    simp [mkMultiQuotient, hb]
  · intro hv
    simp [mkMultiQuotient, (nonDecreasing_iff_chain dims).mpr hv]

/-- C8 witness: the construction claim applied to the decreasing
sequence [4, 2] and to the valid sequence [2, 4, 6]. -/
theorem C8_construction_checks_dimensions_witness :
    mkMultiQuotient [4, 2] (fun _ => 1) = .error .dimensionsNotMonotonic ∧
    mkMultiQuotient [2, 4, 6] (fun _ => 1) =
      .ok (initState [2, 4, 6] (fun _ => 1)) :=
  ⟨(C8_construction_checks_dimensions [4, 2] (fun _ => 1)).1
      (by norm_num [List.chain'_cons]),
    (C8_construction_checks_dimensions [2, 4, 6] (fun _ => 1)).2
      (by norm_num [List.chain'_cons])⟩

/-- C9: a termination condition that is already true before any quantum
runs makes solve return the Cancelled status through its return value —
the model is a total function, so no exception path exists — leaving the
state otherwise untouched: in particular no Level's solved mark
changes, so none becomes Solved. -/
theorem C9_immediate_cancellation (tc : Nat → Bool)
    (oracle : Nat → Nat → QuantumOutcome) (imp0 : Nat → ℚ) (fuel : Nat)
    (st : MQState) (htc : tc 0 = true) (hfuel : 0 < fuel) :
    solve tc oracle imp0 fuel st = { st with status := .cancelled } ∧
    (∀ i, levelSolved (solve tc oracle imp0 fuel st) i = levelSolved st i) := by
  obtain ⟨f, rfl⟩ : ∃ f, fuel = f + 1 := ⟨fuel - 1, by omega⟩
  have h1 : solve tc oracle imp0 (f + 1) st = { st with status := .cancelled } := by
    show solveLoop tc oracle imp0 (f + 1) 0 st = _
    simp only [solveLoop]
    rw [if_pos htc]
  refine ⟨h1, fun i => ?_⟩
  rw [h1]
  rfl

/-- C9 witness: the immediate-cancellation claim applied to the fresh
three-level planner under the constantly-true termination condition. -/
theorem C9_immediate_cancellation_witness :
    (fun _ : Nat => true) 0 = true ∧
    solve (fun _ => true) (fun _ _ => ⟨true, 1, 1, 1⟩) (fun _ => 1) 3
      (initState [2, 4, 6] (fun _ => 1)) =
      { initState [2, 4, 6] (fun _ => 1) with status := .cancelled } :=
  ⟨rfl,
    (C9_immediate_cancellation (fun _ => true) (fun _ _ => ⟨true, 1, 1, 1⟩)
      (fun _ => 1) 3 (initState [2, 4, 6] (fun _ => 1)) rfl (by decide)).1⟩

/-- C10: getValue never throws (the model is a total function): a
parameter constructed without a getter returns the empty string, and
when the getter's result cannot be converted to a string a warning is
logged and the empty string returned. -/
theorem C10_getValue_total {σ T : Type} (p : SpecificParam σ T)
    (lc : LexicalCast T) (s : σ) (m : Msg) :
    (p.getter = none → p.getValue lc s m = ("", m)) ∧
    (∀ g, p.getter = some g → lc.toStr (g s) = none →
      (p.getValue lc s m).1 = "" ∧
      (p.getValue lc s m).2.warnings =
        m.warnings ++ ["Unable to parameter " ++ p.name ++ " to string"]) := by
  constructor
  · intro hg
    simp [SpecificParam.getValue, hg]
  · intro g hg ht
    simp [SpecificParam.getValue, hg, ht, Msg.warn]

/-- C10 witness: the getValue claim applied to a getter-less parameter
and to a parameter whose getter result fails to convert. -/
theorem C10_getValue_total_witness :
    setterOnlyParam.getValue lcUInt 3 msg0 = ("", msg0) ∧
    (stopLevelParam.getValue lcFail 3 msg0).1 = "" ∧
    (stopLevelParam.getValue lcFail 3 msg0).2.warnings =
      msg0.warnings ++
        ["Unable to parameter " ++ stopLevelParam.name ++ " to string"] :=
  ⟨(C10_getValue_total setterOnlyParam lcUInt 3 msg0).1 rfl,
    ((C10_getValue_total stopLevelParam lcFail 3 msg0).2 (fun s => s) rfl rfl).1,
    ((C10_getValue_total stopLevelParam lcFail 3 msg0).2 (fun s => s) rfl rfl).2⟩

end OmplSpec
